import Mathlib

/-!
Shallow embedding of `src/auto_compressor.py` (hynesc/video-compressor):
a hotfolder watcher that detects stable files, bounds concurrent compression
jobs, drives each job through upload / compress / stream-wait / download /
cleanup against a remote HTTP service, and applies per-file failure backoff.

Conventions of the embedding:
* paths are plain strings; the input directory and the output directory are
  disjoint namespaces, modelled as two finite sets of existing names;
* clock values are rationals (Python floats from `time.time()`);
* the remote service, `json.loads` and the transport layer are external
  collaborators, modelled as an environment record consumed by the job;
* exceptions raised inside `process_file`'s `try` block are modelled as
  explicit failure outcomes.
-/

namespace AutoCompressor

/-- The set of characters `str.strip()` removes (ASCII fragment). -/
def pyIsSpace (c : Char) : Bool :=
  c = ' ' || c = '\t' || c = '\n' || c = '\x0d' || c = '\x0b' || c = '\x0c'

/-- Python `str.strip()`. -/
def pyStrip (s : String) : String :=
  ⟨(((s.data.dropWhile pyIsSpace).reverse.dropWhile pyIsSpace).reverse)⟩

/-- Index of the last `'.'` in a character list (Python `str.rfind('.')`,
returning `none` instead of `-1`). -/
def rfindDot : List Char → Option Nat
  | [] => none
  | c :: t =>
    match rfindDot t with
    | some j => some (j + 1)
    | none => if c = '.' then some 0 else none

/-- CPython `PurePath.stem` / `PurePath.suffix` on a file name: split at the
last dot when it is neither the first nor the last character. -/
def pySplitName (l : List Char) : List Char × List Char :=
  match rfindDot l with
  | some i => if 0 < i ∧ i < l.length - 1 then (l.take i, l.drop i) else (l, [])
  | none => (l, [])

/-- Python `Path(name).stem`. -/
def pyStem (s : String) : String := ⟨(pySplitName s.data).1⟩

/-- Python `Path(name).suffix`. -/
def pySuffix (s : String) : String := ⟨(pySplitName s.data).2⟩

/-- The numbered candidate name `f"{base}_{i}{ext}"`. -/
def mkCandidate (base ext : String) (i : Nat) : String :=
  base ++ "_" ++ toString i ++ ext

/-- The `for i in range(2, 1000)` loop of `_unique_output_path`, with the
remaining iteration count as fuel (`fuel = 1000 - i` at entry). -/
def findFreeAux (out : Finset String) (base ext : String) : Nat → Nat → Except String String
  | 0, _ => .error "Refusing to overwrite existing outputs"
  | fuel + 1, i =>
    if mkCandidate base ext i ∉ out then .ok (mkCandidate base ext i)
    else findFreeAux out base ext fuel (i + 1)

/-- `_unique_output_path(output_dir, desired_name)`: `out` is the set of file
names already existing in the output directory. -/
def unique_output_path (out : Finset String) (desired_name : String) : Except String String :=
  let base := pyStem desired_name
  let ext := if pySuffix desired_name = "" then ".mp4" else pySuffix desired_name
  let candidate := base ++ ext
  if candidate ∉ out then .ok candidate
  else findFreeAux out base ext 998 2

/-- A decoded SSE payload, abstracted to the two fields the program reads
(`event.get("type")`, `event.get("message")`). -/
structure Event where
  type : Option String
  message : Option String
deriving DecidableEq

/-- `_sse_events`: consume raw lines, keeping only the successfully decoded
payloads of non-empty `data: ` lines with a non-empty stripped payload.
`decode` stands for `json.loads` (external); `none` models a decode error. -/
def sse_events (decode : String → Option Event) : List String → List Event
  | [] => []
  | raw :: rest =>
    if raw = "" then sse_events decode rest
    else if ¬ "data: ".data.isPrefixOf raw.data then sse_events decode rest
    else
      let dataStr := pyStrip (raw.drop 6)
      if dataStr = "" then sse_events decode rest
      else
        match decode dataStr with
        | some e => e :: sse_events decode rest
        | none => sse_events decode rest

/-- Per-line summary of `_sse_events` (used to characterise it as a filter). -/
def parseSSELine (decode : String → Option Event) (raw : String) : Option Event :=
  if raw = "" then none
  else if ¬ "data: ".data.isPrefixOf raw.data then none
  else
    let dataStr := pyStrip (raw.drop 6)
    if dataStr = "" then none
    else decode dataStr

/-- Result of the stream-wait loop in `process_file` step 3. -/
inductive StreamOutcome where
  | done
  | errorEvt
  | noTerminal
  | stopped
deriving DecidableEq

/-- The `for event in _sse_events(stream_resp)` loop: at each yielded event,
first check `stop_event.is_set()` (the `k`-th check of the shared stop flag),
then recognise the two terminal payload types.  Returns the outcome and the
next stop-check index. -/
def waitLoop (stop : Nat → Bool) : List Event → Nat → StreamOutcome × Nat
  | [], k => (.noTerminal, k)
  | e :: rest, k =>
    if stop k then (.stopped, k + 1)
    else if e.type = some "done" then (.done, k + 1)
    else if e.type = some "error" then (.errorEvt, k + 1)
    else waitLoop stop rest (k + 1)

/-- The first terminal event (type `done` or `error`) of a payload list. -/
def firstTerminal (events : List Event) : Option Event :=
  events.find? (fun e => e.type = some "done" || e.type = some "error")

/-- Filesystem state: the names existing in the input directory and in the
output directory (two distinct directories in the configuration). -/
structure FS where
  inp : Finset String
  out : Finset String
deriving DecidableEq

/-- Side effects performed by one `process_file` invocation, in order. -/
inductive Eff where
  | upload
  | compress
  | streamOpen
  | downloadOpen
  | createOut (name : String)
  | writeOut (name : String) (bytes : Nat)
  | renameOut (src dst : String)
  | unlinkOut (name : String)
  | unlinkInp (name : String)
deriving DecidableEq

/-- External behaviour one job observes: remote responses (`none` models any
HTTP-level or JSON-shape failure, which `raise_for_status` / key access turn
into an exception), the raw stream lines, `json.loads` as `decode`, the
download body as chunk sizes, whether the step-5 source deletion completes
(`cleanupOk = false` models `file_path.unlink()` — or the secure-delete
fallback — raising an error other than the caught `FileNotFoundError`), and
the shared stop flag as the monotone-in-use sequence of its sampled values
(`stop k` = value read at the `k`-th check). -/
structure Env where
  uploadResp : Option (String × String)
  compressResp : Option String
  streamOk : Bool
  lines : List String
  decode : String → Option Event
  downloadOk : Bool
  openTmpOk : Bool
  chunks : List Nat
  dlRaises : Bool
  cleanupOk : Bool
  stop : Nat → Bool

/-- Terminal outcome of one `process_file` invocation. -/
inductive Outcome where
  | skippedMissing
  | cancelled
  | failedError
  | failedNoTerminal
  | failedException
  | success
deriving DecidableEq

/-- The temp download path `final_output_path.with_suffix(suffix + ".part")`. -/
def tmpName (finalName : String) : String := finalName ++ ".part"

/-- The `for chunk in r.iter_content(...)` loop: before handling each chunk
check the stop flag; empty chunks are skipped; non-empty chunks are written
to the temp file.  Returns whether the loop was aborted by the stop flag,
the write effects, and the next stop-check index. -/
def dlLoop (stop : Nat → Bool) (tmp : String) : List Nat → Nat → Bool × List Eff × Nat
  | [], k => (false, [], k)
  | c :: rest, k =>
    if stop k then (true, [], k + 1)
    else if c = 0 then dlLoop stop tmp rest (k + 1)
    else
      match dlLoop stop tmp rest (k + 1) with
      | (ab, tr, k') => (ab, .writeOut tmp c :: tr, k')

/-- `process_file(file_path, session, stop_event)`: the four-stage job (upload,
compress-start, stream-wait, download) plus local cleanup, with the `try`
block's exceptions folded into `Outcome.failedException` (the `except` handler
best-effort deletes the partial temp file when it exists).  `secure` is
`CFG.secure_delete`; both deletion strategies remove the source when they
complete, and either can raise an error other than the caught
`FileNotFoundError` (`cleanupOk = false`), in which case the run ends as a
handled failure with the renamed output in place and the source preserved. -/
def process_file (_secure : Bool) (env : Env) (p : String) (fs : FS) :
    Outcome × FS × List Eff :=
  if p ∉ fs.inp then (.skippedMissing, fs, [])
  else
    match env.uploadResp with
    | none => (.failedException, fs, [.upload])
    | some _ =>
      match env.compressResp with
      | none => (.failedException, fs, [.upload, .compress])
      | some _ =>
        if ¬ env.streamOk then (.failedException, fs, [.upload, .compress, .streamOpen])
        else
          match waitLoop env.stop (sse_events env.decode env.lines) 0 with
          | (.stopped, _) => (.cancelled, fs, [.upload, .compress, .streamOpen])
          | (.errorEvt, _) => (.failedError, fs, [.upload, .compress, .streamOpen])
          | (.noTerminal, _) => (.failedNoTerminal, fs, [.upload, .compress, .streamOpen])
          | (.done, k) =>
            match unique_output_path fs.out (pyStem p ++ "_compressed.mp4") with
            | .error _ => (.failedException, fs, [.upload, .compress, .streamOpen])
            | .ok fin =>
              if ¬ env.downloadOk then
                (.failedException, fs, [.upload, .compress, .streamOpen, .downloadOpen])
              else if ¬ env.openTmpOk then
                (.failedException, fs, [.upload, .compress, .streamOpen, .downloadOpen])
              else
                match dlLoop env.stop (tmpName fin) env.chunks k with
                | (true, wr, _) =>
                  (.cancelled, ⟨fs.inp, insert (tmpName fin) fs.out⟩,
                    [.upload, .compress, .streamOpen, .downloadOpen] ++
                      .createOut (tmpName fin) :: wr)
                | (false, wr, _) =>
                  if env.dlRaises then
                    (.failedException, ⟨fs.inp, (insert (tmpName fin) fs.out).erase (tmpName fin)⟩,
                      [.upload, .compress, .streamOpen, .downloadOpen] ++
                        .createOut (tmpName fin) :: wr ++ [.unlinkOut (tmpName fin)])
                  else if ¬ env.cleanupOk then
                    -- step 5 raised after the rename (only FileNotFoundError is
                    -- caught): the handler finds no temp file left to delete,
                    -- the final file is in place and the source remains
                    (.failedException,
                      ⟨fs.inp, insert fin ((insert (tmpName fin) fs.out).erase (tmpName fin))⟩,
                      [.upload, .compress, .streamOpen, .downloadOpen] ++
                        .createOut (tmpName fin) :: wr ++ [.renameOut (tmpName fin) fin])
                  else
                    (.success,
                      ⟨fs.inp.erase p, insert fin ((insert (tmpName fin) fs.out).erase (tmpName fin))⟩,
                      [.upload, .compress, .streamOpen, .downloadOpen] ++
                        .createOut (tmpName fin) :: wr ++ [.renameOut (tmpName fin) fin, .unlinkInp p])

/-- `next_try_at.get(p, 0)`: the backoff table is an association list with the
most recent binding first (Python dict lookup). -/
def getEntry (tbl : List (String × ℚ)) (p : String) : ℚ :=
  (tbl.lookup p).getD 0

/-- `next_try_at[file_path] = now + 30.0` in `process_wrapper`'s `finally`. -/
def recordBackoff (tbl : List (String × ℚ)) (p : String) (now : ℚ) : List (String × ℚ) :=
  (p, now + 30) :: tbl

/-- `process_wrapper`: run `process_file` (its exceptions are already folded
into the outcome; the wrapper's bare `except: pass` adds nothing), then in
`finally` discard the path from the processing set and, if the input file
still exists, set its backoff entry to `time.time() + 30.0` (`tEnd` is that
clock reading). -/
def process_wrapper (secure : Bool) (env : Env) (p : String)
    (processing : Finset String) (backoff : List (String × ℚ)) (tEnd : ℚ) (fs : FS) :
    Outcome × Finset String × List (String × ℚ) × FS × List Eff :=
  match process_file secure env p fs with
  | (o, fs', tr) =>
    (o, processing.erase p,
      if p ∈ fs'.inp then recordBackoff backoff p tEnd else backoff, fs', tr)

/-- `concurrent.futures.ThreadPoolExecutor` as the scan loop sees it:
`submit` enqueues unconditionally into an unbounded work queue; at most
`maxWorkers` workers (of which `running` are busy) drain it. -/
structure Exec where
  maxWorkers : Nat
  running : Nat
  queued : List String
deriving DecidableEq

/-- `executor.submit(process_wrapper, p, ...)`: always succeeds, never blocks,
appends the task to the executor's internal queue. -/
def execSubmit (ex : Exec) (p : String) : Exec :=
  { ex with queued := ex.queued ++ [p] }

/-- Decision taken by one iteration of the per-path body of the scan loop. -/
inductive Decision where
  | skipProcessing
  | skipBackoff
  | skipMissing
  | skipFirstSeen
  | skipChanged
  | skipYoung
  | admitted
deriving DecidableEq

/-- One iteration of `for p in current:` in `main`: skip already-claimed and
backed-off paths, stat the file (`stat?` is the `p.stat()` result, `none` for
`FileNotFoundError`), record the new snapshot, and admitted only a path whose
previous snapshot exists, equals the current one, and whose mtime is at least
`ready_min_age_s` old; admission adds the path to the processing set and
submits the job (`_submit`). -/
def scanStep (readyMinAge : ℚ) (processing : Finset String)
    (nextTryAt : List (String × ℚ)) (snapshots : List (String × (Nat × ℚ)))
    (now : ℚ) (p : String) (stat? : Option (Nat × ℚ)) (ex : Exec) :
    Decision × Finset String × List (String × (Nat × ℚ)) × Exec :=
  if p ∈ processing then (.skipProcessing, processing, snapshots, ex)
  else if getEntry nextTryAt p > now then (.skipBackoff, processing, snapshots, ex)
  else
    match stat? with
    | none => (.skipMissing, processing, snapshots, ex)
    | some st =>
      match snapshots.lookup p with
      | none => (.skipFirstSeen, processing, (p, st) :: snapshots, ex)
      | some pr =>
        if pr ≠ st then (.skipChanged, processing, (p, st) :: snapshots, ex)
        else if now - st.2 < readyMinAge then (.skipYoung, processing, (p, st) :: snapshots, ex)
        else (.admitted, insert p processing, (p, st) :: snapshots, execSubmit ex p)

/-! ### Helper lemmas -/

theorem rfindDot_append_some (l : List Char) {t : List Char} {j : Nat}
    (h : rfindDot t = some j) : rfindDot (l ++ t) = some (l.length + j) := by
  induction l with
  | nil => simpa using h
  | cons c cs ih =>
    show rfindDot (c :: (cs ++ t)) = _
    rw [rfindDot, ih]
    simp only [List.length_cons, Option.some.injEq]
    omega

theorem pySplitName_compressed (l : List Char) :
    pySplitName (l ++ ("_compressed.mp4".data)) = (l ++ "_compressed".data, ".mp4".data) := by
  have hs : rfindDot ("_compressed.mp4".data) = some 11 := by rfl
  have h := rfindDot_append_some l hs
  have hlen : (l ++ "_compressed.mp4".data).length = l.length + 15 := by
    simp [List.length_append]
  unfold pySplitName
  rw [h]
  show (if 0 < l.length + 11 ∧ l.length + 11 < (l ++ "_compressed.mp4".data).length - 1 then
          (List.take (l.length + 11) (l ++ "_compressed.mp4".data),
           List.drop (l.length + 11) (l ++ "_compressed.mp4".data))
        else (l ++ "_compressed.mp4".data, [])) = _
  rw [if_pos (by constructor <;> omega), List.take_append 11, List.drop_append 11]
  rfl

theorem pyStem_compressed (s : String) :
    pyStem (s ++ "_compressed.mp4") = s ++ "_compressed" := by
  apply String.ext
  show (pySplitName ((s ++ "_compressed.mp4").data)).1 = (s ++ "_compressed").data
  rw [String.data_append, String.data_append, pySplitName_compressed]

theorem pySuffix_compressed (s : String) :
    pySuffix (s ++ "_compressed.mp4") = ".mp4" := by
  apply String.ext
  show (pySplitName ((s ++ "_compressed.mp4").data)).2 = ".mp4".data
  rw [String.data_append, pySplitName_compressed]

/-- `_unique_output_path` on the names `process_file` builds: the stem/suffix
split recovers `<stem>_compressed` and `.mp4`. -/
theorem unique_output_path_compressed (out : Finset String) (s : String) :
    unique_output_path out (s ++ "_compressed.mp4") =
      (if s ++ "_compressed" ++ ".mp4" ∉ out then .ok (s ++ "_compressed" ++ ".mp4")
       else findFreeAux out (s ++ "_compressed") ".mp4" 998 2) := by
  unfold unique_output_path
  rw [pyStem_compressed, pySuffix_compressed]
  norm_num

theorem findFreeAux_ok_not_mem (out : Finset String) (base ext : String) :
    ∀ (fuel i : Nat) (c : String), findFreeAux out base ext fuel i = .ok c → c ∉ out := by
  intro fuel
  induction fuel with
  | zero => intro i c h; simp [findFreeAux] at h
  | succ n ih =>
    intro i c h
    unfold findFreeAux at h
    split at h
    · cases h; assumption
    · exact ih _ _ h

theorem findFreeAux_ok_shape (out : Finset String) (base ext : String) :
    ∀ (fuel i : Nat) (c : String), findFreeAux out base ext fuel i = .ok c →
      ∃ j, i ≤ j ∧ j < i + fuel ∧ c = mkCandidate base ext j := by
  intro fuel
  induction fuel with
  | zero => intro i c h; simp [findFreeAux] at h
  | succ n ih =>
    intro i c h
    unfold findFreeAux at h
    split at h
    · cases h; exact ⟨i, le_rfl, by omega, rfl⟩
    · obtain ⟨j, h1, h2, h3⟩ := ih _ _ h
      exact ⟨j, by omega, by omega, h3⟩

theorem findFreeAux_min (out : Finset String) (base ext : String) :
    ∀ (fuel i j : Nat), i ≤ j → j < i + fuel → mkCandidate base ext j ∉ out →
      (∀ m, i ≤ m → m < j → mkCandidate base ext m ∈ out) →
      findFreeAux out base ext fuel i = .ok (mkCandidate base ext j) := by
  intro fuel
  induction fuel with
  | zero => intro i j h1 h2; omega
  | succ n ih =>
    intro i j h1 h2 hfree hmin
    unfold findFreeAux
    split
    · rcases Nat.eq_or_lt_of_le h1 with heq | hlt
      · rw [heq]
      · exact absurd (hmin i le_rfl hlt) (by assumption)
    · have hij : i ≠ j := by
        rintro rfl
        exact (by assumption : ¬ mkCandidate base ext i ∉ out) hfree
      exact ih (i + 1) j (by omega) (by omega) hfree (fun m hm1 hm2 => hmin m (by omega) hm2)

theorem findFreeAux_all_taken (out : Finset String) (base ext : String) :
    ∀ (fuel i : Nat), (∀ j, i ≤ j → j < i + fuel → mkCandidate base ext j ∈ out) →
      findFreeAux out base ext fuel i = .error "Refusing to overwrite existing outputs" := by
  intro fuel
  induction fuel with
  | zero => intro i _; rfl
  | succ n ih =>
    intro i hall
    unfold findFreeAux
    rw [if_neg (by simpa using hall i le_rfl (by omega))]
    exact ih (i + 1) (fun j h1 h2 => hall j (by omega) (by omega))

theorem lookup_recordBackoff (tbl : List (String × ℚ)) (p : String) (now : ℚ) :
    (recordBackoff tbl p now).lookup p = some (now + 30) := by
  simp [recordBackoff, List.lookup]

theorem getEntry_recordBackoff (tbl : List (String × ℚ)) (p : String) (now : ℚ) :
    getEntry (recordBackoff tbl p now) p = now + 30 := by
  simp [getEntry, lookup_recordBackoff]

section ScanStepLemmas

variable (age : ℚ) (processing : Finset String) (nextTryAt : List (String × ℚ))
variable (snapshots : List (String × (Nat × ℚ))) (now : ℚ) (p : String) (ex : Exec)

theorem scanStep_mem (h : p ∈ processing) (stat? : Option (Nat × ℚ)) :
    scanStep age processing nextTryAt snapshots now p stat? ex =
      (.skipProcessing, processing, snapshots, ex) := by
  simp [scanStep, h]

theorem scanStep_backoff (h1 : p ∉ processing) (h2 : getEntry nextTryAt p > now)
    (stat? : Option (Nat × ℚ)) :
    scanStep age processing nextTryAt snapshots now p stat? ex =
      (.skipBackoff, processing, snapshots, ex) := by
  simp [scanStep, h1, h2]

theorem scanStep_missing (h1 : p ∉ processing) (h2 : ¬ getEntry nextTryAt p > now) :
    scanStep age processing nextTryAt snapshots now p none ex =
      (.skipMissing, processing, snapshots, ex) := by
  simp [scanStep, h1, h2]

theorem scanStep_first (h1 : p ∉ processing) (h2 : ¬ getEntry nextTryAt p > now)
    (st : Nat × ℚ) (hprev : snapshots.lookup p = none) :
    scanStep age processing nextTryAt snapshots now p (some st) ex =
      (.skipFirstSeen, processing, (p, st) :: snapshots, ex) := by
  simp [scanStep, h1, h2, hprev]

theorem scanStep_changed (h1 : p ∉ processing) (h2 : ¬ getEntry nextTryAt p > now)
    (st pr : Nat × ℚ) (hprev : snapshots.lookup p = some pr) (hne : pr ≠ st) :
    scanStep age processing nextTryAt snapshots now p (some st) ex =
      (.skipChanged, processing, (p, st) :: snapshots, ex) := by
  simp [scanStep, h1, h2, hprev, hne]

theorem scanStep_young (h1 : p ∉ processing) (h2 : ¬ getEntry nextTryAt p > now)
    (st : Nat × ℚ) (hprev : snapshots.lookup p = some st) (hage : now - st.2 < age) :
    scanStep age processing nextTryAt snapshots now p (some st) ex =
      (.skipYoung, processing, (p, st) :: snapshots, ex) := by
  simp [scanStep, h1, h2, hprev, hage]

theorem scanStep_admits (h1 : p ∉ processing) (h2 : ¬ getEntry nextTryAt p > now)
    (st : Nat × ℚ) (hprev : snapshots.lookup p = some st) (hage : ¬ now - st.2 < age) :
    scanStep age processing nextTryAt snapshots now p (some st) ex =
      (.admitted, insert p processing, (p, st) :: snapshots, execSubmit ex p) := by
  simp [scanStep, h1, h2, hprev, hage]

theorem scanStep_admit_iff (stat? : Option (Nat × ℚ)) :
    (scanStep age processing nextTryAt snapshots now p stat? ex).1 = .admitted ↔
      (p ∉ processing ∧ ¬ getEntry nextTryAt p > now ∧
        ∃ st, stat? = some st ∧ snapshots.lookup p = some st ∧ ¬ now - st.2 < age) := by
  by_cases h1 : p ∈ processing
  · rw [scanStep_mem _ _ _ _ _ _ _ h1]
    simp [h1]
  · by_cases h2 : getEntry nextTryAt p > now
    · rw [scanStep_backoff _ _ _ _ _ _ _ h1 h2]
      simp [h2]
    · rcases hstat : stat? with _ | st
      · rw [scanStep_missing _ _ _ _ _ _ _ h1 h2]
        simp
      · rcases hprev : snapshots.lookup p with _ | pr
        · rw [scanStep_first _ _ _ _ _ _ _ h1 h2 st hprev]
          simp [hprev]
        · by_cases hne : pr = st
          · subst hne
            by_cases hage : now - pr.2 < age
            · rw [scanStep_young _ _ _ _ _ _ _ h1 h2 pr hprev hage]
              simp [hprev, hage]
            · rw [scanStep_admits _ _ _ _ _ _ _ h1 h2 pr hprev hage]
              simp [h1, h2, hprev, hage, not_lt.mp hage]
          · rw [scanStep_changed _ _ _ _ _ _ _ h1 h2 st pr hprev hne]
            simp [hprev, hne]

theorem scanStep_skipBackoff_iff (stat? : Option (Nat × ℚ)) (h1 : p ∉ processing) :
    ((scanStep age processing nextTryAt snapshots now p stat? ex).1 = .skipBackoff ↔
      getEntry nextTryAt p > now) := by
  by_cases h2 : getEntry nextTryAt p > now
  · rw [scanStep_backoff age processing nextTryAt snapshots now p ex h1 h2 stat?]
    simpa using h2
  · simp only [h2, iff_false]
    intro hd
    rcases hstat : stat? with _ | st
    all_goals subst hstat
    · rw [scanStep_missing age processing nextTryAt snapshots now p ex h1 h2] at hd
      simp at hd
    · rcases hprev : snapshots.lookup p with _ | pr
      · rw [scanStep_first age processing nextTryAt snapshots now p ex h1 h2 st hprev] at hd
        simp at hd
      · by_cases hne : pr = st
        · subst hne
          by_cases hage : now - pr.2 < age
          · rw [scanStep_young age processing nextTryAt snapshots now p ex h1 h2 pr hprev hage] at hd
            simp at hd
          · rw [scanStep_admits age processing nextTryAt snapshots now p ex h1 h2 pr hprev hage] at hd
            simp at hd
        · rw [scanStep_changed age processing nextTryAt snapshots now p ex h1 h2 st pr hprev hne] at hd
          simp at hd

theorem scanStep_decision_indep (stat? : Option (Nat × ℚ)) (ex' : Exec) :
    (scanStep age processing nextTryAt snapshots now p stat? ex).1 =
      (scanStep age processing nextTryAt snapshots now p stat? ex').1 := by
  by_cases h1 : p ∈ processing
  · rw [scanStep_mem age processing nextTryAt snapshots now p ex h1 stat?,
      scanStep_mem age processing nextTryAt snapshots now p ex' h1 stat?]
  · by_cases h2 : getEntry nextTryAt p > now
    · rw [scanStep_backoff age processing nextTryAt snapshots now p ex h1 h2 stat?,
        scanStep_backoff age processing nextTryAt snapshots now p ex' h1 h2 stat?]
    · rcases hstat : stat? with _ | st
      · rw [scanStep_missing age processing nextTryAt snapshots now p ex h1 h2,
          scanStep_missing age processing nextTryAt snapshots now p ex' h1 h2]
      · rcases hprev : snapshots.lookup p with _ | pr
        · rw [scanStep_first age processing nextTryAt snapshots now p ex h1 h2 st hprev,
            scanStep_first age processing nextTryAt snapshots now p ex' h1 h2 st hprev]
        · by_cases hne : pr = st
          · subst hne
            by_cases hage : now - pr.2 < age
            · rw [scanStep_young age processing nextTryAt snapshots now p ex h1 h2 pr hprev hage,
                scanStep_young age processing nextTryAt snapshots now p ex' h1 h2 pr hprev hage]
            · rw [scanStep_admits age processing nextTryAt snapshots now p ex h1 h2 pr hprev hage,
                scanStep_admits age processing nextTryAt snapshots now p ex' h1 h2 pr hprev hage]
          · rw [scanStep_changed age processing nextTryAt snapshots now p ex h1 h2 st pr hprev hne,
              scanStep_changed age processing nextTryAt snapshots now p ex' h1 h2 st pr hprev hne]

end ScanStepLemmas

theorem tmpName_ne (s : String) : tmpName s ≠ s := by
  intro h
  have hlen := congrArg String.length h
  rw [tmpName, String.length_append, show (".part" : String).length = 5 from rfl] at hlen
  omega

theorem erase_insert_subset (a : String) (s : Finset String) : (insert a s).erase a ⊆ s := by
  intro x hx
  rcases Finset.mem_erase.mp hx with ⟨hne, hmem⟩
  rcases Finset.mem_insert.mp hmem with h | h
  · exact absurd h hne
  · exact h

theorem dlLoop_writes (stop : Nat → Bool) (tmp : String) :
    ∀ (chunks : List Nat) (k : Nat) (e : Eff), e ∈ (dlLoop stop tmp chunks k).2.1 →
      ∃ n, e = .writeOut tmp n := by
  intro chunks
  induction chunks with
  | nil => intro k e h; simp [dlLoop] at h
  | cons c rest ih =>
    intro k e h
    unfold dlLoop at h
    split at h
    · simp at h
    · split at h
      · exact ih _ e h
      · rcases hd : dlLoop stop tmp rest (k + 1) with ⟨ab, tr, k'⟩
        rw [hd] at h
        simp only at h
        rcases List.mem_cons.mp h with h | h
        · exact ⟨c, h⟩
        · exact ih _ e (by rw [hd]; exact h)

theorem dlLoop_complete (stop : Nat → Bool) (tmp : String) :
    ∀ (chunks : List Nat) (k : Nat), (dlLoop stop tmp chunks k).1 = false →
      ∀ c ∈ chunks, c ≠ 0 → Eff.writeOut tmp c ∈ (dlLoop stop tmp chunks k).2.1 := by
  intro chunks
  induction chunks with
  | nil => intro k _ c hc; simp at hc
  | cons c0 rest ih =>
    intro k hab c hc hc0
    by_cases hs : stop k
    · rw [show dlLoop stop tmp (c0 :: rest) k = (true, [], k + 1) from by simp [dlLoop, hs]] at hab
      simp at hab
    · by_cases h0 : c0 = 0
      · have heq : dlLoop stop tmp (c0 :: rest) k = dlLoop stop tmp rest (k + 1) := by
          simp [dlLoop, hs, h0]
        rw [heq] at hab ⊢
        rcases List.mem_cons.mp hc with h | h
        · rw [h] at hc0
          exact absurd h0 hc0
        · exact ih (k + 1) hab c h hc0
      · rcases hd : dlLoop stop tmp rest (k + 1) with ⟨ab, tr, k'⟩
        have heq : dlLoop stop tmp (c0 :: rest) k = (ab, .writeOut tmp c0 :: tr, k') := by
          simp [dlLoop, hs, h0, hd]
        rw [heq] at hab ⊢
        rcases List.mem_cons.mp hc with h | h
        · rw [h]
          exact List.mem_cons_self _ _
        · have hrec := ih (k + 1) (by rw [hd]; exact hab) c h hc0
          rw [hd] at hrec
          exact List.mem_cons_of_mem _ hrec

theorem unique_output_path_ok_not_mem (out : Finset String) (d c : String)
    (h : unique_output_path out d = .ok c) : c ∉ out := by
  unfold unique_output_path at h
  set ext := if pySuffix d = "" then ".mp4" else pySuffix d with hext
  by_cases hmem : pyStem d ++ ext ∉ out
  · rw [if_pos hmem] at h
    cases h
    exact hmem
  · rw [if_neg hmem] at h
    exact findFreeAux_ok_not_mem out (pyStem d) ext 998 2 c h

/-- Exhaustive case analysis of one `process_file` run: every reachable
terminal configuration, with the download-stage cases carrying the chosen
final name and the fact that the loop wrote only to its `.part` file. -/
theorem process_file_cases (sec : Bool) (env : Env) (p : String) (fs : FS) :
    (p ∉ fs.inp ∧ process_file sec env p fs = (.skippedMissing, fs, [])) ∨
    (p ∈ fs.inp ∧ process_file sec env p fs = (.failedException, fs, [.upload])) ∨
    (p ∈ fs.inp ∧ process_file sec env p fs = (.failedException, fs, [.upload, .compress])) ∨
    (p ∈ fs.inp ∧ process_file sec env p fs =
      (.failedException, fs, [.upload, .compress, .streamOpen])) ∨
    (p ∈ fs.inp ∧ process_file sec env p fs =
      (.cancelled, fs, [.upload, .compress, .streamOpen])) ∨
    (p ∈ fs.inp ∧ process_file sec env p fs =
      (.failedError, fs, [.upload, .compress, .streamOpen])) ∨
    (p ∈ fs.inp ∧ process_file sec env p fs =
      (.failedNoTerminal, fs, [.upload, .compress, .streamOpen])) ∨
    (p ∈ fs.inp ∧ (∃ fin, unique_output_path fs.out (pyStem p ++ "_compressed.mp4") = .ok fin) ∧
      process_file sec env p fs =
        (.failedException, fs, [.upload, .compress, .streamOpen, .downloadOpen])) ∨
    (p ∈ fs.inp ∧ ∃ fin wr, unique_output_path fs.out (pyStem p ++ "_compressed.mp4") = .ok fin ∧
      (∀ e ∈ wr, ∃ n, e = Eff.writeOut (tmpName fin) n) ∧
      process_file sec env p fs =
        (.cancelled, ⟨fs.inp, insert (tmpName fin) fs.out⟩,
          [.upload, .compress, .streamOpen, .downloadOpen] ++ .createOut (tmpName fin) :: wr)) ∨
    (p ∈ fs.inp ∧ ∃ fin wr, unique_output_path fs.out (pyStem p ++ "_compressed.mp4") = .ok fin ∧
      (∀ e ∈ wr, ∃ n, e = Eff.writeOut (tmpName fin) n) ∧
      process_file sec env p fs =
        (.failedException, ⟨fs.inp, (insert (tmpName fin) fs.out).erase (tmpName fin)⟩,
          [.upload, .compress, .streamOpen, .downloadOpen] ++
            .createOut (tmpName fin) :: wr ++ [.unlinkOut (tmpName fin)])) ∨
    (p ∈ fs.inp ∧ ∃ fin wr, unique_output_path fs.out (pyStem p ++ "_compressed.mp4") = .ok fin ∧
      (∀ e ∈ wr, ∃ n, e = Eff.writeOut (tmpName fin) n) ∧
      (∀ c ∈ env.chunks, c ≠ 0 → Eff.writeOut (tmpName fin) c ∈ wr) ∧
      process_file sec env p fs =
        (.failedException,
          ⟨fs.inp, insert fin ((insert (tmpName fin) fs.out).erase (tmpName fin))⟩,
          [.upload, .compress, .streamOpen, .downloadOpen] ++
            .createOut (tmpName fin) :: wr ++ [.renameOut (tmpName fin) fin])) ∨
    (p ∈ fs.inp ∧ ∃ fin wr, unique_output_path fs.out (pyStem p ++ "_compressed.mp4") = .ok fin ∧
      (∀ e ∈ wr, ∃ n, e = Eff.writeOut (tmpName fin) n) ∧
      (∀ c ∈ env.chunks, c ≠ 0 → Eff.writeOut (tmpName fin) c ∈ wr) ∧
      process_file sec env p fs =
        (.success, ⟨fs.inp.erase p, insert fin ((insert (tmpName fin) fs.out).erase (tmpName fin))⟩,
          [.upload, .compress, .streamOpen, .downloadOpen] ++
            .createOut (tmpName fin) :: wr ++ [.renameOut (tmpName fin) fin, .unlinkInp p])) := by
  by_cases hp : p ∈ fs.inp
  case neg => exact Or.inl ⟨hp, by simp [process_file, hp]⟩
  rcases hu : env.uploadResp with _ | u
  · exact Or.inr (Or.inl ⟨hp, by simp [process_file, hp, hu]⟩)
  rcases hc : env.compressResp with _ | c
  · exact Or.inr (Or.inr (Or.inl ⟨hp, by simp [process_file, hp, hu, hc]⟩))
  by_cases hs : env.streamOk
  case neg =>
    exact Or.inr (Or.inr (Or.inr (Or.inl ⟨hp, by simp [process_file, hp, hu, hc, hs]⟩)))
  rcases hwl : waitLoop env.stop (sse_events env.decode env.lines) 0 with ⟨so, k⟩
  cases so with
  | stopped =>
    refine Or.inr (Or.inr (Or.inr (Or.inr (Or.inl ⟨hp, ?_⟩))))
    simp [process_file, hp, hu, hc, hs, hwl]
  | errorEvt =>
    refine Or.inr (Or.inr (Or.inr (Or.inr (Or.inr (Or.inl ⟨hp, ?_⟩)))))
    simp [process_file, hp, hu, hc, hs, hwl]
  | noTerminal =>
    refine Or.inr (Or.inr (Or.inr (Or.inr (Or.inr (Or.inr (Or.inl ⟨hp, ?_⟩))))))
    simp [process_file, hp, hu, hc, hs, hwl]
  | done =>
    rcases huo : unique_output_path fs.out (pyStem p ++ "_compressed.mp4") with msg | fin
    · refine Or.inr (Or.inr (Or.inr (Or.inl ⟨hp, ?_⟩)))
      simp [process_file, hp, hu, hc, hs, hwl, huo]
    by_cases hdl : env.downloadOk
    case neg =>
      refine Or.inr (Or.inr (Or.inr (Or.inr (Or.inr (Or.inr (Or.inr (Or.inl
        ⟨hp, ⟨fin, rfl⟩, ?_⟩)))))))
      simp [process_file, hp, hu, hc, hs, hwl, huo, hdl]
    by_cases hot : env.openTmpOk
    case neg =>
      refine Or.inr (Or.inr (Or.inr (Or.inr (Or.inr (Or.inr (Or.inr (Or.inl
        ⟨hp, ⟨fin, rfl⟩, ?_⟩)))))))
      simp [process_file, hp, hu, hc, hs, hwl, huo, hdl, hot]
    rcases hloop : dlLoop env.stop (tmpName fin) env.chunks k with ⟨ab, wr, k'⟩
    have hwr : ∀ e ∈ wr, ∃ n, e = Eff.writeOut (tmpName fin) n := by
      intro e he
      exact dlLoop_writes env.stop (tmpName fin) env.chunks k e (by rw [hloop]; exact he)
    cases ab with
    | true =>
      refine Or.inr (Or.inr (Or.inr (Or.inr (Or.inr (Or.inr (Or.inr (Or.inr (Or.inl
        ⟨hp, fin, wr, rfl, hwr, ?_⟩))))))))
      simp [process_file, hp, hu, hc, hs, hwl, huo, hdl, hot, hloop]
    | false =>
      by_cases hr : env.dlRaises
      · refine Or.inr (Or.inr (Or.inr (Or.inr (Or.inr (Or.inr (Or.inr (Or.inr (Or.inr (Or.inl
          ⟨hp, fin, wr, rfl, hwr, ?_⟩)))))))))
        simp [process_file, hp, hu, hc, hs, hwl, huo, hdl, hot, hloop, hr]
      · have hfull : ∀ c ∈ env.chunks, c ≠ 0 → Eff.writeOut (tmpName fin) c ∈ wr := by
          intro c hcm hc0
          have hmem := dlLoop_complete env.stop (tmpName fin) env.chunks k
            (by rw [hloop]) c hcm hc0
          rw [hloop] at hmem
          exact hmem
        by_cases hcl : env.cleanupOk
        · refine Or.inr (Or.inr (Or.inr (Or.inr (Or.inr (Or.inr (Or.inr (Or.inr (Or.inr (Or.inr
            (Or.inr ⟨hp, fin, wr, rfl, hwr, hfull, ?_⟩))))))))))
          simp [process_file, hp, hu, hc, hs, hwl, huo, hdl, hot, hloop, hr, hcl]
        · refine Or.inr (Or.inr (Or.inr (Or.inr (Or.inr (Or.inr (Or.inr (Or.inr (Or.inr (Or.inr
            (Or.inl ⟨hp, fin, wr, rfl, hwr, hfull, ?_⟩))))))))))
          simp [process_file, hp, hu, hc, hs, hwl, huo, hdl, hot, hloop, hr, hcl]

/-! ### Claim theorems -/

/-- C1: a file present in both the previous snapshot and the current stat with
an identical (size, mtime) pair, whose mtime is at least `ready_min_age_s`
older than now, is admitted by the scan loop (provided it is not already
claimed or in backoff, the two admission-side filters of the same loop body);
a file whose two consecutive observations differ (any change of the pair,
including an mtime that moved backward), or that is first observed this
cycle, is never admitted. -/
theorem C1_readiness (age : ℚ) (processing : Finset String)
    (nextTryAt : List (String × ℚ)) (snapshots : List (String × (Nat × ℚ)))
    (now : ℚ) (p : String) (ex : Exec) :
    (∀ sz mt, p ∉ processing → ¬ getEntry nextTryAt p > now →
      snapshots.lookup p = some (sz, mt) → now - mt ≥ age →
      scanStep age processing nextTryAt snapshots now p (some (sz, mt)) ex =
        (.admitted, insert p processing, (p, (sz, mt)) :: snapshots, execSubmit ex p)) ∧
    (∀ sz mt pr, snapshots.lookup p = some pr → pr ≠ (sz, mt) →
      (scanStep age processing nextTryAt snapshots now p (some (sz, mt)) ex).1 ≠ .admitted) ∧
    (∀ stat?, snapshots.lookup p = none →
      (scanStep age processing nextTryAt snapshots now p stat? ex).1 ≠ .admitted) := by
  refine ⟨?_, ?_, ?_⟩
  · intro sz mt h1 h2 h3 h4
    exact scanStep_admits age processing nextTryAt snapshots now p ex h1 h2 (sz, mt) h3
      (by simpa using not_lt.mpr h4)
  · intro sz mt pr h3 hne hadm
    rw [scanStep_admit_iff] at hadm
    obtain ⟨-, -, st, hst, hlook, -⟩ := hadm
    rw [h3] at hlook
    cases hst
    exact hne (by injection hlook)
  · intro stat? h3 hadm
    rw [scanStep_admit_iff] at hadm
    obtain ⟨-, -, st, -, hlook, -⟩ := hadm
    rw [h3] at hlook
    cases hlook

/-- C1 witness: a concrete stable, old-enough file is admitted. -/
theorem C1_readiness_witness :
    scanStep 4 ∅ [] [("a.mov", (5, 10))] 100 "a.mov" (some ((5 : Nat), (10 : ℚ))) ⟨5, 0, []⟩ =
      (.admitted, insert "a.mov" ∅, [("a.mov", (5, 10)), ("a.mov", (5, 10))],
        execSubmit ⟨5, 0, []⟩ "a.mov") :=
  (C1_readiness 4 ∅ [] [("a.mov", (5, 10))] 100 "a.mov" ⟨5, 0, []⟩).1 5 10
    (by simp) (by norm_num [getEntry]) (by decide) (by norm_num)

/-- C2: the processing set (Claim Set, a mathematical set, so membership is
at most once by construction) gains `p` exactly on admission, an admission
only happens when `p` is not a member (a member is skipped), and
`process_wrapper`'s `finally` removes `p` from the set whatever the outcome
of the job (success, failure, or cancellation). -/
theorem C2_claim_set (secure : Bool) (env : Env) (p : String)
    (processing : Finset String) (backoff : List (String × ℚ)) (tEnd : ℚ) (fs : FS)
    (age now : ℚ) (nextTryAt : List (String × ℚ))
    (snapshots : List (String × (Nat × ℚ))) (stat? : Option (Nat × ℚ)) (ex : Exec) :
    ((process_wrapper secure env p processing backoff tEnd fs).2.1 = processing.erase p ∧
      p ∉ (process_wrapper secure env p processing backoff tEnd fs).2.1) ∧
    ((scanStep age processing nextTryAt snapshots now p stat? ex).1 = .admitted →
      p ∉ processing ∧
      (scanStep age processing nextTryAt snapshots now p stat? ex).2.1 = insert p processing) ∧
    (p ∈ processing →
      (scanStep age processing nextTryAt snapshots now p stat? ex).1 = .skipProcessing) := by
  refine ⟨?_, ?_, ?_⟩
  · rcases hpf : process_file secure env p fs with ⟨o, fs', tr⟩
    constructor
    · simp [process_wrapper, hpf]
    · simp [process_wrapper, hpf]
  · intro hadm
    have h := (scanStep_admit_iff age processing nextTryAt snapshots now p ex stat?).mp hadm
    obtain ⟨h1, h2, st, hstat, hprev, hage⟩ := h
    subst hstat
    rw [scanStep_admits age processing nextTryAt snapshots now p ex h1 h2 st hprev hage]
    exact ⟨h1, rfl⟩
  · intro h
    rw [scanStep_mem age processing nextTryAt snapshots now p ex h stat?]

/-- C4 counterexample: with every worker slot busy (`running = maxWorkers`),
the scan loop still admits the ready candidate — `_submit` adds it to the
processing set and `executor.submit` places it in the executor's internal
queue — instead of deferring it to the next poll cycle as the claim states. -/
theorem C4_no_free_slot_counterexample :
    ((scanStep 4 ∅ [] [("a.mov", (5, 10))] 100 "a.mov" (some ((5 : Nat), (10 : ℚ)))
        ⟨1, 1, []⟩).1 = .admitted) ∧
    (⟨1, 1, []⟩ : Exec).running = (⟨1, 1, []⟩ : Exec).maxWorkers ∧
    ((scanStep 4 ∅ [] [("a.mov", (5, 10))] 100 "a.mov" (some ((5 : Nat), (10 : ℚ)))
        ⟨1, 1, []⟩).2.2.2.queued = ["a.mov"]) := by
  refine ⟨?_, rfl, ?_⟩ <;> norm_num [scanStep, getEntry, execSubmit]

/-- C4 (amended): admission of a ready candidate succeeds if and only if the
path is not already claimed, not in backoff, and stable-and-old-enough — the
executor's occupancy is never consulted (the decision is identical for any
executor state); an admitted job is appended to the executor's unbounded
internal queue (`executor.submit` always succeeds immediately), so when no
worker slot is free the job waits in that queue rather than being deferred
to the next poll cycle, and the scan loop never blocks. -/
theorem C4_admission_amended (age : ℚ) (processing : Finset String)
    (nextTryAt : List (String × ℚ)) (snapshots : List (String × (Nat × ℚ)))
    (now : ℚ) (p : String) (stat? : Option (Nat × ℚ)) (ex ex' : Exec) :
    ((scanStep age processing nextTryAt snapshots now p stat? ex).1 =
      (scanStep age processing nextTryAt snapshots now p stat? ex').1) ∧
    ((scanStep age processing nextTryAt snapshots now p stat? ex).1 = .admitted ↔
      (p ∉ processing ∧ ¬ getEntry nextTryAt p > now ∧
        ∃ st, stat? = some st ∧ snapshots.lookup p = some st ∧ ¬ now - st.2 < age)) ∧
    ((scanStep age processing nextTryAt snapshots now p stat? ex).1 = .admitted →
      (scanStep age processing nextTryAt snapshots now p stat? ex).2.2.2 = execSubmit ex p ∧
      (scanStep age processing nextTryAt snapshots now p stat? ex).2.1 = insert p processing) := by
  refine ⟨scanStep_decision_indep age processing nextTryAt snapshots now p ex stat? ex',
    scanStep_admit_iff age processing nextTryAt snapshots now p ex stat?, ?_⟩
  intro hadm
  have h := (scanStep_admit_iff age processing nextTryAt snapshots now p ex stat?).mp hadm
  obtain ⟨h1, h2, st, hstat, hprev, hage⟩ := h
  subst hstat
  rw [scanStep_admits age processing nextTryAt snapshots now p ex h1 h2 st hprev hage]
  exact ⟨rfl, rfl⟩

/-- C9: the scan loop skips a path exactly when its backoff entry is strictly
greater than the current time; after `recordFailure` at time `T` (delay 30 s),
the path is skipped at every `t` with `T ≤ t < T + 30` and not skipped for
`t ≥ T + 30`; a path with no entry is never skipped (at any nonnegative
clock value, `time.time()` being nonnegative). -/
theorem C9_backoff_semantics (age : ℚ) (processing : Finset String)
    (tbl : List (String × ℚ)) (snapshots : List (String × (Nat × ℚ)))
    (now T : ℚ) (p : String) (stat? : Option (Nat × ℚ)) (ex : Exec) :
    (p ∉ processing →
      ((scanStep age processing tbl snapshots now p stat? ex).1 = .skipBackoff ↔
        getEntry tbl p > now)) ∧
    (∀ t : ℚ, T ≤ t → t < T + 30 → getEntry (recordBackoff tbl p T) p > t) ∧
    (∀ t : ℚ, T + 30 ≤ t → ¬ getEntry (recordBackoff tbl p T) p > t) ∧
    (tbl.lookup p = none → ∀ t : ℚ, 0 ≤ t → ¬ getEntry tbl p > t) := by
  refine ⟨?_, ?_, ?_, ?_⟩
  · intro h1
    exact scanStep_skipBackoff_iff age processing tbl snapshots now p ex stat? h1
  · intro t _ ht2
    rw [getEntry_recordBackoff]
    exact ht2
  · intro t ht
    rw [getEntry_recordBackoff]
    exact not_lt.mpr ht
  · intro hnone t ht
    rw [getEntry, hnone]
    simpa using ht

/-- C9 witness: a concrete failure at `T = 100` is skipped at `t = 110` and
eligible again at `t = 130`; an absent entry never skips. -/
theorem C9_backoff_semantics_witness :
    getEntry (recordBackoff [] "clip.mov" 100) "clip.mov" > 110 ∧
    ¬ getEntry (recordBackoff [] "clip.mov" 100) "clip.mov" > 130 ∧
    ¬ getEntry [] "clip.mov" > 50 := by
  refine ⟨?_, ?_, ?_⟩
  · exact (C9_backoff_semantics 4 ∅ [] [] 0 100 "clip.mov" none ⟨1, 0, []⟩).2.1 110
      (by norm_num) (by norm_num)
  · exact (C9_backoff_semantics 4 ∅ [] [] 0 100 "clip.mov" none ⟨1, 0, []⟩).2.2.1 130
      (by norm_num)
  · exact (C9_backoff_semantics 4 ∅ [] [] 0 100 "clip.mov" none ⟨1, 0, []⟩).2.2.2 rfl 50
      (by norm_num)

/-- C10: if the source file no longer exists when the Job Executor begins,
the guard returns immediately — no network call, no file created or deleted
(the effect trace is empty and the filesystem unchanged) — and the wrapper
records no backoff entry, the file not existing at the `finally` check. -/
theorem C10_missing_source (sec : Bool) (env : Env) (p : String)
    (processing : Finset String) (backoff : List (String × ℚ)) (tEnd : ℚ) (fs : FS)
    (h : p ∉ fs.inp) :
    process_file sec env p fs = (.skippedMissing, fs, []) ∧
    process_wrapper sec env p processing backoff tEnd fs =
      (.skippedMissing, processing.erase p, backoff, fs, []) := by
  have h1 : process_file sec env p fs = (.skippedMissing, fs, []) := by
    simp [process_file, h]
  refine ⟨h1, ?_⟩
  simp [process_wrapper, h1, h]

/-- C10 witness: a concrete run on an absent source file. -/
theorem C10_missing_source_witness :
    process_file false
      ⟨some ("f", "j"), some "t", true, [], (fun _ => none), true, true, [], false, true,
        (fun _ => false)⟩ "gone.mov" ⟨∅, ∅⟩ = (.skippedMissing, ⟨∅, ∅⟩, []) ∧
    process_wrapper false
      ⟨some ("f", "j"), some "t", true, [], (fun _ => none), true, true, [], false, true,
        (fun _ => false)⟩ "gone.mov" {"gone.mov"} [] 100 ⟨∅, ∅⟩ =
      (.skippedMissing, Finset.erase {"gone.mov"} "gone.mov", [], ⟨∅, ∅⟩, []) :=
  C10_missing_source false
    ⟨some ("f", "j"), some "t", true, [], (fun _ => none), true, true, [], false, true,
      (fun _ => false)⟩ "gone.mov" {"gone.mov"} [] 100 ⟨∅, ∅⟩ (by decide)

/-- C5: on any job failure — an HTTP-level error at any stage, a stream
`error` event, a stream closing without a terminal event, or a local I/O
error during download or cleanup (all folded into the three failure
outcomes) — the source file is not deleted and remains in the input
directory; any partial `.part` temp file of the job has been removed (a
fresh temp name is absent afterwards, and the output directory holds at most
the job's completed final artifact beyond what it had); and the wrapper
records the 30-second backoff entry for the path. -/
theorem C5_failure_handling (sec : Bool) (env : Env) (p : String)
    (processing : Finset String) (backoff : List (String × ℚ)) (tEnd : ℚ) (fs : FS)
    (o : Outcome) (ps : Finset String) (bk : List (String × ℚ)) (fs' : FS) (tr : List Eff)
    (hw : process_wrapper sec env p processing backoff tEnd fs = (o, ps, bk, fs', tr))
    (ho : o = .failedException ∨ o = .failedError ∨ o = .failedNoTerminal) :
    p ∈ fs'.inp ∧ fs'.inp = fs.inp ∧
    (∀ fin, unique_output_path fs.out (pyStem p ++ "_compressed.mp4") = .ok fin →
      (tmpName fin ∉ fs.out → tmpName fin ∉ fs'.out) ∧ fs'.out ⊆ insert fin fs.out) ∧
    bk = recordBackoff backoff p tEnd ∧ bk.lookup p = some (tEnd + 30) := by
  rcases process_file_cases sec env p fs with
    ⟨hp, hpf⟩ | ⟨hp, hpf⟩ | ⟨hp, hpf⟩ | ⟨hp, hpf⟩ | ⟨hp, hpf⟩ | ⟨hp, hpf⟩ | ⟨hp, hpf⟩ |
    ⟨hp, hfin, hpf⟩ | ⟨hp, fin, wr, hfin, hwr, hpf⟩ | ⟨hp, fin, wr, hfin, hwr, hpf⟩ |
    ⟨hp, fin, wr, hfin, hwr, hfull, hpf⟩ | ⟨hp, fin, wr, hfin, hwr, hfull, hpf⟩
  all_goals simp only [process_wrapper, hpf, hp, ite_true, ite_false, if_true, if_false,
    Prod.mk.injEq] at hw
  all_goals obtain ⟨rfl, rfl, rfl, rfl, rfl⟩ := hw
  all_goals try simp at ho
  -- failure outcomes with the filesystem unchanged
  all_goals try exact ⟨hp, rfl,
    fun fin2 hfin2 => ⟨fun h => h, Finset.subset_insert _ _⟩,
    rfl, lookup_recordBackoff backoff p tEnd⟩
  -- download raised after partial bytes: the temp file was erased
  all_goals try
    (refine ⟨hp, rfl, ?_, rfl, lookup_recordBackoff backoff p tEnd⟩
     intro fin2 hfin2
     rw [hfin] at hfin2
     cases hfin2
     exact ⟨fun _ => Finset.not_mem_erase _ _,
       (erase_insert_subset _ _).trans (Finset.subset_insert _ _)⟩)
  -- cleanup raised after the rename: the final file is present, the temp is not
  refine ⟨hp, rfl, ?_, rfl, lookup_recordBackoff backoff p tEnd⟩
  intro fin2 hfin2
  rw [hfin] at hfin2
  cases hfin2
  constructor
  · intro _ hmem
    rcases Finset.mem_insert.mp hmem with h | h
    · exact tmpName_ne fin h
    · exact Finset.not_mem_erase _ _ h
  · intro x hx
    rcases Finset.mem_insert.mp hx with h | h
    · exact h ▸ Finset.mem_insert_self _ _
    · exact Finset.mem_insert_of_mem (erase_insert_subset _ _ h)

/-- C5 witness: a concrete stream-error run preserves the source, leaves no
temp or final artifact behind and records the 30-second backoff entry. -/
theorem C5_failure_handling_witness :
    "clip.mov" ∈ (FS.mk {"clip.mov"} ∅).inp ∧
    (FS.mk {"clip.mov"} ∅).inp = (FS.mk {"clip.mov"} ∅).inp ∧
    (∀ fin, unique_output_path (FS.mk {"clip.mov"} ∅).out
        (pyStem "clip.mov" ++ "_compressed.mp4") = .ok fin →
      (tmpName fin ∉ (FS.mk {"clip.mov"} ∅).out →
        tmpName fin ∉ (FS.mk {"clip.mov"} ∅).out) ∧
        (FS.mk {"clip.mov"} ∅).out ⊆ insert fin (FS.mk {"clip.mov"} ∅).out) ∧
    recordBackoff [] "clip.mov" 100 = recordBackoff [] "clip.mov" 100 ∧
    (recordBackoff [] "clip.mov" 100).lookup "clip.mov" = some (100 + 30) :=
  C5_failure_handling false
    ⟨some ("f", "j"), some "t", true, ["data: e"],
      (fun _ => some ⟨some "error", some "boom"⟩), true, true, [], false, true, (fun _ => false)⟩
    "clip.mov" ∅ [] 100 ⟨{"clip.mov"}, ∅⟩ .failedError (Finset.erase ∅ "clip.mov")
    (recordBackoff [] "clip.mov" 100) ⟨{"clip.mov"}, ∅⟩ [.upload, .compress, .streamOpen]
    rfl (Or.inr (Or.inl rfl))

/-- C3 counterexample: a job abandoned because the stop signal is observed at
the first stream event leaves the source file in place, yet the wrapper's
`finally` still records a 30-second backoff entry for the path — so "no
backoff entry is recorded for that path" is false on the code. -/
theorem C3_cancellation_counterexample :
    (process_wrapper false
        ⟨some ("f", "j"), some "t", true, ["data: x"], (fun _ => some ⟨none, none⟩),
          true, true, [], false, true, (fun _ => true)⟩
        "clip.mov" ∅ [] 100 ⟨{"clip.mov"}, ∅⟩).1 = .cancelled ∧
    "clip.mov" ∈ (process_wrapper false
        ⟨some ("f", "j"), some "t", true, ["data: x"], (fun _ => some ⟨none, none⟩),
          true, true, [], false, true, (fun _ => true)⟩
        "clip.mov" ∅ [] 100 ⟨{"clip.mov"}, ∅⟩).2.2.2.1.inp ∧
    (process_wrapper false
        ⟨some ("f", "j"), some "t", true, ["data: x"], (fun _ => some ⟨none, none⟩),
          true, true, [], false, true, (fun _ => true)⟩
        "clip.mov" ∅ [] 100 ⟨{"clip.mov"}, ∅⟩).2.2.1.lookup "clip.mov" = some (100 + 30) :=
  ⟨rfl, by decide, rfl⟩

/-- C3 (amended): when the Job Executor abandons a job on the shutdown
signal, the source file is preserved (no cancellation path deletes it), but
`process_wrapper`'s `finally` records the same 30-second backoff entry as for
a failure, because the source file still exists; the entry lives only in the
process's in-memory table, so it does not survive the shutdown and the file
is still retried promptly on the next run of the process. -/
theorem C3_cancellation_amended (sec : Bool) (env : Env) (p : String)
    (processing : Finset String) (backoff : List (String × ℚ)) (tEnd : ℚ) (fs : FS)
    (o : Outcome) (ps : Finset String) (bk : List (String × ℚ)) (fs' : FS) (tr : List Eff)
    (hw : process_wrapper sec env p processing backoff tEnd fs = (o, ps, bk, fs', tr))
    (ho : o = .cancelled) :
    p ∈ fs'.inp ∧ fs'.inp = fs.inp ∧ (∀ nm, Eff.unlinkInp nm ∉ tr) ∧
    bk = recordBackoff backoff p tEnd ∧ bk.lookup p = some (tEnd + 30) := by
  rcases process_file_cases sec env p fs with
    ⟨hp, hpf⟩ | ⟨hp, hpf⟩ | ⟨hp, hpf⟩ | ⟨hp, hpf⟩ | ⟨hp, hpf⟩ | ⟨hp, hpf⟩ | ⟨hp, hpf⟩ |
    ⟨hp, hfin, hpf⟩ | ⟨hp, fin, wr, hfin, hwr, hpf⟩ | ⟨hp, fin, wr, hfin, hwr, hpf⟩ |
    ⟨hp, fin, wr, hfin, hwr, hfull, hpf⟩ | ⟨hp, fin, wr, hfin, hwr, hfull, hpf⟩
  all_goals simp only [process_wrapper, hpf, hp, ite_true, ite_false, if_true, if_false,
    Prod.mk.injEq] at hw
  all_goals obtain ⟨rfl, rfl, rfl, rfl, rfl⟩ := hw
  all_goals try simp at ho
  · refine ⟨hp, rfl, ?_, rfl, lookup_recordBackoff backoff p tEnd⟩
    intro nm hmem
    simp at hmem
  · refine ⟨hp, rfl, ?_, rfl, lookup_recordBackoff backoff p tEnd⟩
    intro nm hmem
    simp only [List.mem_append, List.mem_cons] at hmem
    rcases hmem with h | h | h
    · simp at h
    · cases h
    · obtain ⟨n, hn⟩ := hwr _ h
      cases hn

/-- C8: downloaded bytes are written only to the job's `.part` temp file,
whose corresponding final path was chosen as not existing; every rename is
the temp file onto its fresh final path, performed only after the full
download body has been written (every non-empty chunk of the body appears as
a write to that temp file), and it puts the final file in place; in every
run in which that rename never happened — in particular whenever the
download is cancelled or fails after partial bytes — no file ever exists at
the job's final output path; on success the final file exists. -/
theorem C8_atomic_download (sec : Bool) (env : Env) (p : String) (fs : FS)
    (o : Outcome) (fs' : FS) (tr : List Eff)
    (hw : process_file sec env p fs = (o, fs', tr)) :
    (∀ nm n, Eff.writeOut nm n ∈ tr →
      ∃ fin, unique_output_path fs.out (pyStem p ++ "_compressed.mp4") = .ok fin ∧
        nm = tmpName fin ∧ fin ∉ fs.out) ∧
    (∀ src dst, Eff.renameOut src dst ∈ tr →
      src = tmpName dst ∧ dst ∉ fs.out ∧ dst ∈ fs'.out ∧
      (∀ c ∈ env.chunks, c ≠ 0 → Eff.writeOut (tmpName dst) c ∈ tr)) ∧
    (∀ fin, unique_output_path fs.out (pyStem p ++ "_compressed.mp4") = .ok fin →
      Eff.renameOut (tmpName fin) fin ∉ tr → fin ∉ fs'.out) ∧
    (o = .success →
      ∀ fin, unique_output_path fs.out (pyStem p ++ "_compressed.mp4") = .ok fin →
        fin ∈ fs'.out) := by
  rcases process_file_cases sec env p fs with
    ⟨hp, hpf⟩ | ⟨hp, hpf⟩ | ⟨hp, hpf⟩ | ⟨hp, hpf⟩ | ⟨hp, hpf⟩ | ⟨hp, hpf⟩ | ⟨hp, hpf⟩ |
    ⟨hp, hfin, hpf⟩ | ⟨hp, fin, wr, hfin, hwr, hpf⟩ | ⟨hp, fin, wr, hfin, hwr, hpf⟩ |
    ⟨hp, fin, wr, hfin, hwr, hfull, hpf⟩ | ⟨hp, fin, wr, hfin, hwr, hfull, hpf⟩
  all_goals rw [hpf] at hw
  all_goals simp only [Prod.mk.injEq] at hw
  all_goals obtain ⟨rfl, rfl, rfl⟩ := hw
  -- the seven pre-download branches and the failed-download-open branch:
  -- no writes, no renames, filesystem unchanged
  all_goals try
    (refine ⟨?_, ?_, ?_, ?_⟩
     · intro nm n hmem
       simp at hmem
     · intro src dst hmem
       simp at hmem
     · intro fin hfin2 _
       exact unique_output_path_ok_not_mem _ _ _ hfin2
     · intro hsucc
       simp at hsucc)
  -- download aborted by the stop flag: tmp file remains, final path untouched
  · refine ⟨?_, ?_, ?_, ?_⟩
    · intro nm n hmem
      simp at hmem
      obtain ⟨m, hm⟩ := hwr _ hmem
      cases hm
      exact ⟨fin, hfin, rfl, unique_output_path_ok_not_mem _ _ _ hfin⟩
    · intro src dst hmem
      simp at hmem
      obtain ⟨m, hm⟩ := hwr _ hmem
      cases hm
    · intro fin2 hfin2 _
      rw [hfin] at hfin2
      cases hfin2
      intro hmem
      rcases Finset.mem_insert.mp hmem with h | h
      · exact tmpName_ne fin h.symm
      · exact unique_output_path_ok_not_mem _ _ _ hfin h
    · intro hsucc
      simp at hsucc
  -- download raised after partial bytes: tmp file removed, final path untouched
  · refine ⟨?_, ?_, ?_, ?_⟩
    · intro nm n hmem
      simp at hmem
      obtain ⟨m, hm⟩ := hwr _ hmem
      cases hm
      exact ⟨fin, hfin, rfl, unique_output_path_ok_not_mem _ _ _ hfin⟩
    · intro src dst hmem
      simp at hmem
      obtain ⟨m, hm⟩ := hwr _ hmem
      cases hm
    · intro fin2 hfin2 _
      rw [hfin] at hfin2
      cases hfin2
      intro hmem
      exact unique_output_path_ok_not_mem _ _ _ hfin (erase_insert_subset _ _ hmem)
    · intro hsucc
      simp at hsucc
  -- cleanup raised after the rename: the rename did happen, after the full
  -- body, and the final file is in place
  · refine ⟨?_, ?_, ?_, ?_⟩
    · intro nm n hmem
      simp at hmem
      obtain ⟨m, hm⟩ := hwr _ hmem
      cases hm
      exact ⟨fin, hfin, rfl, unique_output_path_ok_not_mem _ _ _ hfin⟩
    · intro src dst hmem
      simp at hmem
      rcases hmem with h | h
      · obtain ⟨m, hm⟩ := hwr _ h
        cases hm
      · obtain ⟨h1, h2⟩ := h
        subst h1
        subst h2
        refine ⟨rfl, unique_output_path_ok_not_mem _ _ _ hfin, Finset.mem_insert_self _ _, ?_⟩
        intro c hcm hc0
        have hcw := hfull c hcm hc0
        simp only [List.mem_append, List.mem_cons]
        tauto
    · intro fin2 hfin2 hno
      rw [hfin] at hfin2
      cases hfin2
      refine absurd ?_ hno
      simp
    · intro hsucc
      simp at hsucc
  -- full success: the only rename is temp-to-final after the full body, and
  -- the final file exists
  · refine ⟨?_, ?_, ?_, ?_⟩
    · intro nm n hmem
      simp at hmem
      obtain ⟨m, hm⟩ := hwr _ hmem
      cases hm
      exact ⟨fin, hfin, rfl, unique_output_path_ok_not_mem _ _ _ hfin⟩
    · intro src dst hmem
      simp at hmem
      rcases hmem with h | h
      · obtain ⟨m, hm⟩ := hwr _ h
        cases hm
      · obtain ⟨h1, h2⟩ := h
        subst h1
        subst h2
        refine ⟨rfl, unique_output_path_ok_not_mem _ _ _ hfin, Finset.mem_insert_self _ _, ?_⟩
        intro c hcm hc0
        have hcw := hfull c hcm hc0
        simp only [List.mem_append, List.mem_cons]
        tauto
    · intro fin2 hfin2 hno
      rw [hfin] at hfin2
      cases hfin2
      refine absurd ?_ hno
      simp
    · intro _ fin2 hfin2
      rw [hfin] at hfin2
      cases hfin2
      exact Finset.mem_insert_self _ _

/-- C8 witness: a concrete download that raises after one partial chunk
(no rename in its trace) leaves no file at the chosen final output path. -/
theorem C8_atomic_download_witness :
    "clip_compressed.mp4" ∉
      Finset.erase (insert (tmpName "clip_compressed.mp4") (∅ : Finset String))
        (tmpName "clip_compressed.mp4") :=
  (C8_atomic_download false
      ⟨some ("f", "j"), some "t", true, ["data: d"], (fun _ => some ⟨some "done", none⟩),
        true, true, [7], true, true, (fun _ => false)⟩
      "clip.mov" ⟨{"clip.mov"}, ∅⟩ .failedException
      ⟨{"clip.mov"},
        Finset.erase (insert (tmpName "clip_compressed.mp4") (∅ : Finset String))
          (tmpName "clip_compressed.mp4")⟩
      ([.upload, .compress, .streamOpen, .downloadOpen] ++
        .createOut (tmpName "clip_compressed.mp4") ::
          [.writeOut (tmpName "clip_compressed.mp4") 7] ++
        [.unlinkOut (tmpName "clip_compressed.mp4")])
      (by rfl)).2.2.1 "clip_compressed.mp4" (by rfl) (by decide)

/-- C6: for any source stem, the final output name is
`<stem>_compressed.mp4`; when that name already exists, the smallest
disambiguator `_2`, `_3`, … giving a free name is used; when the base name
and all 998 numbered candidates exist, the function raises instead of
silently overwriting; and every returned name did not previously exist. -/
theorem C6_output_naming (s : String) (out : Finset String) :
    (s ++ "_compressed" ++ ".mp4" ∉ out →
      unique_output_path out (s ++ "_compressed.mp4") = .ok (s ++ "_compressed" ++ ".mp4")) ∧
    (∀ i, 2 ≤ i → i < 1000 → s ++ "_compressed" ++ ".mp4" ∈ out →
      mkCandidate (s ++ "_compressed") ".mp4" i ∉ out →
      (∀ j, 2 ≤ j → j < i → mkCandidate (s ++ "_compressed") ".mp4" j ∈ out) →
      unique_output_path out (s ++ "_compressed.mp4") =
        .ok (mkCandidate (s ++ "_compressed") ".mp4" i)) ∧
    (s ++ "_compressed" ++ ".mp4" ∈ out →
      (∀ j, 2 ≤ j → j < 1000 → mkCandidate (s ++ "_compressed") ".mp4" j ∈ out) →
      unique_output_path out (s ++ "_compressed.mp4") =
        .error "Refusing to overwrite existing outputs") ∧
    (∀ c, unique_output_path out (s ++ "_compressed.mp4") = .ok c →
      c ∉ out ∧ (c = s ++ "_compressed" ++ ".mp4" ∨
        ∃ i, 2 ≤ i ∧ i < 1000 ∧ c = mkCandidate (s ++ "_compressed") ".mp4" i)) := by
  refine ⟨?_, ?_, ?_, ?_⟩
  · intro h
    rw [unique_output_path_compressed, if_pos h]
  · intro i h2 h1000 hbase hfree hmin
    rw [unique_output_path_compressed, if_neg (by simpa using hbase)]
    exact findFreeAux_min out _ _ 998 2 i h2 (by omega) hfree (fun m hm1 hm2 => hmin m hm1 hm2)
  · intro hbase hall
    rw [unique_output_path_compressed, if_neg (by simpa using hbase)]
    exact findFreeAux_all_taken out _ _ 998 2 (fun j hj1 hj2 => hall j hj1 (by omega))
  · intro c hc
    refine ⟨unique_output_path_ok_not_mem _ _ _ hc, ?_⟩
    rw [unique_output_path_compressed] at hc
    by_cases h : s ++ "_compressed" ++ ".mp4" ∉ out
    · rw [if_pos h] at hc
      cases hc
      exact Or.inl rfl
    · rw [if_neg h] at hc
      obtain ⟨j, hj1, hj2, hj3⟩ := findFreeAux_ok_shape out _ _ 998 2 c hc
      exact Or.inr ⟨j, hj1, by omega, hj3⟩

/-- C6 witness: with `video_compressed.mp4` already present, the job for
source stem `video` gets `video_compressed_2.mp4`, not an overwrite. -/
theorem C6_output_naming_witness :
    unique_output_path {"video_compressed.mp4"} ("video" ++ "_compressed.mp4") =
      .ok (mkCandidate ("video" ++ "_compressed") ".mp4" 2) :=
  (C6_output_naming "video" {"video_compressed.mp4"}).2.1 2 (by norm_num) (by norm_num)
    (by decide) (by decide)
    (fun j hj1 hj2 => absurd (lt_of_le_of_lt hj1 hj2) (by decide))

theorem sse_events_eq_filterMap (decode : String → Option Event) :
    ∀ lines : List String, sse_events decode lines = lines.filterMap (parseSSELine decode) := by
  intro lines
  induction lines with
  | nil => rfl
  | cons raw rest ih =>
    rw [List.filterMap_cons]
    by_cases h1 : raw = ""
    · simp [sse_events, parseSSELine, h1, ih]
    · by_cases h2 : "data: ".data.isPrefixOf raw.data
      · by_cases h3 : pyStrip (raw.drop 6) = ""
        · simp [sse_events, parseSSELine, h1, h2, h3, ih]
        · rcases hd : decode (pyStrip (raw.drop 6)) with _ | e
          · simp [sse_events, parseSSELine, h1, h2, h3, hd, ih]
          · simp [sse_events, parseSSELine, h1, h2, h3, hd, ih]
      · simp [sse_events, parseSSELine, h1, h2, ih]

theorem waitLoop_no_stop_char (events : List Event) :
    ∀ k : Nat,
      (((waitLoop (fun _ => false) events k).1 = .done) ↔
        ∃ e, firstTerminal events = some e ∧ e.type = some "done") ∧
      (((waitLoop (fun _ => false) events k).1 = .errorEvt) ↔
        ∃ e, firstTerminal events = some e ∧ e.type = some "error") ∧
      (((waitLoop (fun _ => false) events k).1 = .noTerminal) ↔
        firstTerminal events = none) := by
  induction events with
  | nil => intro k; simp [waitLoop, firstTerminal]
  | cons e rest ih =>
    intro k
    by_cases hd : e.type = some "done"
    · simp [waitLoop, firstTerminal, hd]
    · by_cases he : e.type = some "error"
      · simp [waitLoop, firstTerminal, hd, he]
      · have hrec := ih (k + 1)
        have hft : firstTerminal (e :: rest) = firstTerminal rest := by
          simp [firstTerminal, hd, he]
        rw [show waitLoop (fun _ => false) (e :: rest) k =
            waitLoop (fun _ => false) rest (k + 1) by simp [waitLoop, hd, he], hft]
        exact hrec

/-- C7: the SSE parser yields exactly the successfully decoded payloads of
`data: `-prefixed lines, skipping empty lines, non-data lines, empty payloads
and undecodable payloads; and, absent cancellation, the wait loop succeeds
iff the first terminal event of the stream is of type `done`, fails when it
is of type `error`, and fails when the stream ends with no terminal event. -/
theorem C7_sse_parsing_and_wait (decode : String → Option Event)
    (lines : List String) (k : Nat) :
    (sse_events decode lines = lines.filterMap (parseSSELine decode)) ∧
    (((waitLoop (fun _ => false) (sse_events decode lines) k).1 = .done) ↔
      ∃ e, firstTerminal (sse_events decode lines) = some e ∧ e.type = some "done") ∧
    (((waitLoop (fun _ => false) (sse_events decode lines) k).1 = .errorEvt) ↔
      ∃ e, firstTerminal (sse_events decode lines) = some e ∧ e.type = some "error") ∧
    (((waitLoop (fun _ => false) (sse_events decode lines) k).1 = .noTerminal) ↔
      firstTerminal (sse_events decode lines) = none) :=
  ⟨sse_events_eq_filterMap decode lines,
    (waitLoop_no_stop_char (sse_events decode lines) k).1,
    (waitLoop_no_stop_char (sse_events decode lines) k).2.1,
    (waitLoop_no_stop_char (sse_events decode lines) k).2.2⟩

/-- C2 witness: a concrete wrapper run removes the path from the claim set. -/
theorem C2_claim_set_witness :
    (process_wrapper false
        ⟨some ("f", "j"), some "t", true, [], (fun _ => none), true, true, [], false, true,
          (fun _ => false)⟩
        "clip.mov" {"clip.mov"} [] 100 ⟨∅, ∅⟩).2.1 = Finset.erase {"clip.mov"} "clip.mov" ∧
    "clip.mov" ∉ (process_wrapper false
        ⟨some ("f", "j"), some "t", true, [], (fun _ => none), true, true, [], false, true,
          (fun _ => false)⟩
        "clip.mov" {"clip.mov"} [] 100 ⟨∅, ∅⟩).2.1 :=
  (C2_claim_set false
    ⟨some ("f", "j"), some "t", true, [], (fun _ => none), true, true, [], false, true,
      (fun _ => false)⟩
    "clip.mov" {"clip.mov"} [] 100 ⟨∅, ∅⟩ 4 100 [] [] none ⟨1, 0, []⟩).1

/-- C3 witness (amended claim): a concrete cancelled run preserves the source
and records the 30-second backoff entry. -/
theorem C3_cancellation_amended_witness :
    "clip.mov" ∈ (FS.mk {"clip.mov"} ∅).inp ∧
    (FS.mk {"clip.mov"} ∅).inp = (FS.mk {"clip.mov"} ∅).inp ∧
    (∀ nm, Eff.unlinkInp nm ∉ ([.upload, .compress, .streamOpen] : List Eff)) ∧
    recordBackoff [] "clip.mov" 100 = recordBackoff [] "clip.mov" 100 ∧
    (recordBackoff [] "clip.mov" 100).lookup "clip.mov" = some (100 + 30) :=
  C3_cancellation_amended false
    ⟨some ("f", "j"), some "t", true, ["data: x"], (fun _ => some ⟨none, none⟩),
      true, true, [], false, true, (fun _ => true)⟩
    "clip.mov" ∅ [] 100 ⟨{"clip.mov"}, ∅⟩ .cancelled (Finset.erase ∅ "clip.mov")
    (recordBackoff [] "clip.mov" 100) ⟨{"clip.mov"}, ∅⟩ [.upload, .compress, .streamOpen]
    (by rfl) rfl

/-- C4 witness (amended claim): the concrete admitted job of the
counterexample state is appended to the executor queue and to the claim set. -/
theorem C4_admission_amended_witness :
    (scanStep 4 ∅ [] [("a.mov", (5, 10))] 100 "a.mov" (some ((5 : Nat), (10 : ℚ)))
        ⟨1, 1, []⟩).2.2.2 = execSubmit ⟨1, 1, []⟩ "a.mov" ∧
    (scanStep 4 ∅ [] [("a.mov", (5, 10))] 100 "a.mov" (some ((5 : Nat), (10 : ℚ)))
        ⟨1, 1, []⟩).2.1 = insert "a.mov" ∅ :=
  (C4_admission_amended 4 ∅ [] [("a.mov", (5, 10))] 100 "a.mov" (some (5, 10))
    ⟨1, 1, []⟩ ⟨2, 0, []⟩).2.2 (by norm_num [scanStep, getEntry])

/-- C7 witness: on a concrete line list the parser keeps exactly the decoded
`data: ` payload and the wait loop reaches `done`. -/
theorem C7_sse_parsing_and_wait_witness :
    (waitLoop (fun _ => false)
      (sse_events (fun s => if s = "d" then some ⟨some "done", none⟩ else none)
        ["", "event: p", "data:", "data: d"]) 0).1 = .done :=
  (C7_sse_parsing_and_wait (fun s => if s = "d" then some ⟨some "done", none⟩ else none)
      ["", "event: p", "data:", "data: d"] 0).2.1.mpr
    ⟨⟨some "done", none⟩, by decide, by decide⟩

end AutoCompressor
